import Mathlib

/-!
Verification of the hybrid lexical/overlap retrieval core of the
Multi-Agent-Policy-Analysis-Pipeline repository
(src/src/agents/retriever_agent.py) against its natural-language
specification.

The Python source is shallowly embedded as follows.

Text model: Python strings are modelled as `List Char`; `str.lower`
maps `Char.toLower` over the characters (faithful for the ASCII texts
the pipeline processes); `str.split()` with no argument splits on runs
of whitespace and never produces empty tokens.

Scores: the float64 scores of the code are modelled as exact values in
a linear ordered field (`ℚ` for concrete evaluation, `ℝ` for the tf-idf
index model, whose cosine similarities involve square roots).

Sorting: Python `sorted(..., reverse=True)` is stable by language
guarantee and is modelled with the stable `List.insertionSort`.
`numpy.argsort` (ascending, default kind quicksort/introsort) is also
modelled with the stable sort, but numpy only guarantees that order for
arrays of at most 16 elements (its insertion-sort regime); above that
threshold introsort may scramble equal scores, so the relative order of
TIES in `argsortAsc` is one admissible resolution, not a guarantee of
the program.  Every theorem below that other claims rely on is
independent of the tie order, and every concrete evaluation uses arrays
of at most 2 elements, where numpy argsort genuinely is insertion sort.
`scores.argsort()[-top_k:][::-1]` is modelled by `lastKRev`: take the
last `top_k` positions of the ascending argsort and reverse.  Python
`a[-0:]` is the whole list, and the model reproduces that corner case.

Python `dict` built from a list of unique keys is modelled as an
association list with `dictGet` returning the stored value or the
default 0, exactly like `d.get(idx, 0)` in the source.

The one genuinely implementation-defined point is the iteration order
of `all_indices = set(bm25_dict.keys()) | set(dense_dict.keys())` in
`hybrid_retrieval`: CPython iterates an int set in hash-table order.
The embedding therefore takes the enumeration order of the candidate
union as an explicit parameter `order`, constrained by `CandidateOrder`
to be a duplicate-free enumeration of exactly that union; theorems
about `hybrid_retrieval` hold for every admissible order unless stated
otherwise.
-/

namespace Retriever

/-- Python `str.lower` over the characters of a string (ASCII case map). -/
def pyLower (s : List Char) : List Char := s.map Char.toLower

/-- Accumulator-based scanner for `pyWords`: `acc` holds the current
in-progress token in reverse. -/
def pyWordsAux : List Char → List Char → List (List Char)
  | [], acc => if acc = [] then [] else [acc.reverse]
  | c :: rest, acc =>
      if c.isWhitespace then
        if acc = [] then pyWordsAux rest [] else acc.reverse :: pyWordsAux rest []
      else pyWordsAux rest (c :: acc)

/-- Python `str.split()` with no argument: split on runs of whitespace;
no empty tokens are produced. -/
def pyWords (s : List Char) : List (List Char) := pyWordsAux s []

/-- `overlap = len(query_words and chunk_words)` in `dense_retrieval_mock`
(set intersection): the number of distinct lower-cased whitespace tokens of
the query that also occur among the tokens of the chunk. -/
def overlapCount (query chunk : List Char) : Nat :=
  (((pyWords (pyLower query)).dedup).filter (fun t => t ∈ pyWords (pyLower chunk))).length

/-- A word character for the sklearn default token pattern (regex word
class over ASCII): alphanumeric or underscore. -/
def isWordChar (c : Char) : Bool := c.isAlphanum || c = '_'

/-- Accumulator-based scanner extracting maximal runs of word characters. -/
def wordRunsAux : List Char → List Char → List (List Char)
  | [], acc => if acc = [] then [] else [acc.reverse]
  | c :: rest, acc =>
      if isWordChar c then wordRunsAux rest (c :: acc)
      else if acc = [] then wordRunsAux rest [] else acc.reverse :: wordRunsAux rest []

/-- Maximal runs of word characters of a string. -/
def wordRuns (s : List Char) : List (List Char) := wordRunsAux s []

/-- The default sklearn `CountVectorizer` analyzer used by
`TfidfVectorizer` in `build_bm25_index`: lowercase the text, then take the
tokens matching `\b\w\w+\b`, i.e. the maximal word-character runs of
length at least 2. -/
def sklearnTokenize (s : List Char) : List (List Char) :=
  (wordRuns (pyLower s)).filter (fun t => 2 ≤ t.length)

section Ranking

variable {α : Type} [LinearOrderedField α]

/-- Ascending comparison of (position, score) pairs by score. -/
def scoreAsc (p q : ℕ × α) : Prop := p.2 ≤ q.2

/-- Descending comparison of (position, score) pairs by score, the key
used by `sorted(hybrid_scores.items(), key=lambda x: x[1], reverse=True)`. -/
def scoreDesc (p q : ℕ × α) : Prop := q.2 ≤ p.2

instance : DecidableRel (scoreAsc (α := α)) :=
  fun p q => inferInstanceAs (Decidable (p.2 ≤ q.2))

instance : DecidableRel (scoreDesc (α := α)) :=
  fun p q => inferInstanceAs (Decidable (q.2 ≤ p.2))

instance : IsTotal (ℕ × α) scoreAsc := ⟨fun p q => le_total p.2 q.2⟩

instance : IsTrans (ℕ × α) scoreAsc := ⟨fun _ _ _ h1 h2 => le_trans h1 h2⟩

instance : IsTotal (ℕ × α) scoreDesc := ⟨fun p q => le_total q.2 p.2⟩

instance : IsTrans (ℕ × α) scoreDesc := ⟨fun _ _ _ h1 h2 => le_trans h2 h1⟩

/-- `scores.argsort()`: the positions of `scores` sorted ascending by
score.  The model keeps ties in position order (stable); numpy matches
this exactly for arrays of at most 16 elements (insertion-sort regime)
and guarantees no particular tie order above that threshold, so results
about the order of EQUAL scores hold of the program only in the small
stable regime, and no other conclusion drawn below depends on the tie
order. -/
def argsortAsc (scores : List α) : List ℕ :=
  (List.insertionSort scoreAsc scores.enum).map Prod.fst

/-- Python slicing `l[-k:][::-1]`: the last `k` entries, reversed.
`l[-0:]` is the whole list in Python; the model reproduces that. -/
def lastKRev {β : Type} (l : List β) (k : ℕ) : List β :=
  (if k = 0 then l else l.drop (l.length - k)).reverse

/-- `top_indices = scores.argsort()[-top_k:][::-1]`, shared by
`bm25_retrieval` and `dense_retrieval_mock`. -/
def topIndices (scores : List α) (k : ℕ) : List ℕ := lastKRev (argsortAsc scores) k

/-- The loop appending `(chunks[idx], float(scores[idx]), int(idx))` over
`top_indices`; the chunk text is recoverable from the index, so a result is
modelled as the pair (index, score). -/
def retrievalResults (scores : List α) (k : ℕ) : List (ℕ × α) :=
  (topIndices scores k).map (fun i => (i, scores.getD i 0))

/-- `bm25_retrieval(query, vectorizer, tfidf_matrix, chunks, top_k)` after
its score computation: the argument `scores` stands for
`cosine_similarity(query_vec, tfidf_matrix).flatten()` (the per-chunk
lexical scores; the tf-idf model below produces them for the real index). -/
def bm25_retrieval (scores : List α) (k : ℕ) : List (ℕ × α) := retrievalResults scores k

/-- The per-chunk overlap scores computed by `dense_retrieval_mock`:
`overlap = len(set(query.lower().split()) and set(chunk.lower().split()))`
for each chunk, promoted from int to float/field element. -/
def denseScores (query : List Char) (chunks : List (List Char)) : List α :=
  chunks.map (fun c => (overlapCount query c : α))

/-- `dense_retrieval_mock(query, chunks, top_k)`. -/
def dense_retrieval_mock (query : List Char) (chunks : List (List Char)) (k : ℕ) :
    List (ℕ × α) :=
  retrievalResults (denseScores (α := α) query chunks) k

/-- `d.get(idx, 0)` for the dicts `bm25_dict` / `dense_dict` built from the
result lists (their keys are distinct, so first-match lookup agrees with the
Python dict). -/
def dictGet : List (ℕ × α) → ℕ → α
  | [], _ => 0
  | p :: rest, i => if p.1 = i then p.2 else dictGet rest i

/-- `hybrid_scores[idx] = alpha * bm25_score + (1 - alpha) * dense_score`
where the two dict lookups default to 0. -/
def fusedScore (b d : List (ℕ × α)) (a : α) (i : ℕ) : α :=
  a * dictGet b i + (1 - a) * dictGet d i

/-- `hybrid_scores.items()` enumerated in the given candidate order. -/
def hybridCandidates (b d : List (ℕ × α)) (a : α) (order : List ℕ) : List (ℕ × α) :=
  order.map (fun i => (i, fusedScore b d a i))

/-- `hybrid_retrieval(query, vectorizer, tfidf_matrix, chunks, top_k, alpha)`:
run both scorers with the same `top_k`, fuse over the union of their index
sets (enumerated by `order`), sort descending by fused score with the stable
Python `sorted`, truncate to `top_k`.  `lexScores` stands for the cosine
scores of the query against the tf-idf matrix, as in `bm25_retrieval`. -/
def hybrid_retrieval (lexScores : List α) (query : List Char) (chunks : List (List Char))
    (k : ℕ) (a : α) (order : List ℕ) : List (ℕ × α) :=
  (List.insertionSort scoreDesc
    (hybridCandidates (bm25_retrieval lexScores k)
      (dense_retrieval_mock query chunks k) a order)).take k

/-- The candidate index set of the lexical side, `bm25_dict.keys()`. -/
def bm25Ids (lexScores : List α) (k : ℕ) : List ℕ :=
  (bm25_retrieval lexScores k).map Prod.fst

/-- The candidate index set of the overlap side, `dense_dict.keys()`. -/
def denseIds (query : List Char) (chunks : List (List Char)) (k : ℕ) : List ℕ :=
  (dense_retrieval_mock (α := α) query chunks k).map Prod.fst

/-- `order` is an admissible iteration order of the CPython set
`set(bm25_dict.keys()) | set(dense_dict.keys())`: it enumerates exactly
the union of the two key sets, without duplicates. -/
def CandidateOrder (lexScores : List α) (query : List Char) (chunks : List (List Char))
    (k : ℕ) (order : List ℕ) : Prop :=
  order.Nodup ∧
  (∀ i ∈ order, i ∈ bm25Ids lexScores k ∨ i ∈ denseIds (α := α) query chunks k) ∧
  (∀ i ∈ bm25Ids lexScores k, i ∈ order) ∧
  (∀ i ∈ denseIds (α := α) query chunks k, i ∈ order)

instance (lexScores : List α) (query : List Char) (chunks : List (List Char))
    (k : ℕ) (order : List ℕ) :
    Decidable (CandidateOrder lexScores query chunks k order) :=
  inferInstanceAs (Decidable (_ ∧ _ ∧ _ ∧ _))

/-- The result ordering asserted by the spec (not by the code): strictly
descending score, with equal scores broken by ascending chunk id. -/
def SortedDescTiesAsc (l : List (ℕ × α)) : Prop :=
  l.Pairwise (fun p q => q.2 < p.2 ∨ (p.2 = q.2 ∧ p.1 < q.1))

instance (l : List (ℕ × α)) : Decidable (SortedDescTiesAsc l) :=
  inferInstanceAs (Decidable (l.Pairwise _))

end Ranking

section Tfidf

/-- The built-in English stop word list of sklearn
(`sklearn.feature_extraction.text.ENGLISH_STOP_WORDS`), activated by
`stop_words=english` in `build_bm25_index`.  Transcribed from the library;
the development relies only on the membership of common function words. -/
def englishStopWords : List (List Char) :=
  (["a", "about", "above", "across", "after", "afterwards", "again", "against",
    "all", "almost", "alone", "along", "already", "also", "although", "always",
    "am", "among", "amongst", "amoungst", "amount", "an", "and", "another",
    "any", "anyhow", "anyone", "anything", "anyway", "anywhere", "are",
    "around", "as", "at", "back", "be", "became", "because", "become",
    "becomes", "becoming", "been", "before", "beforehand", "behind", "being",
    "below", "beside", "besides", "between", "beyond", "bill", "both",
    "bottom", "but", "by", "call", "can", "cannot", "cant", "co", "con",
    "could", "couldnt", "cry", "de", "describe", "detail", "do", "done",
    "down", "due", "during", "each", "eg", "eight", "either", "eleven",
    "else", "elsewhere", "empty", "enough", "etc", "even", "ever", "every",
    "everyone", "everything", "everywhere", "except", "few", "fifteen",
    "fifty", "fill", "find", "fire", "first", "five", "for", "former",
    "formerly", "forty", "found", "four", "from", "front", "full", "further",
    "get", "give", "go", "had", "has", "hasnt", "have", "he", "hence", "her",
    "here", "hereafter", "hereby", "herein", "hereupon", "hers", "herself",
    "him", "himself", "his", "how", "however", "hundred", "i", "ie", "if",
    "in", "inc", "indeed", "interest", "into", "is", "it", "its", "itself",
    "keep", "last", "latter", "latterly", "least", "less", "ltd", "made",
    "many", "may", "me", "meanwhile", "might", "mill", "mine", "more",
    "moreover", "most", "mostly", "move", "much", "must", "my", "myself",
    "name", "namely", "neither", "never", "nevertheless", "next", "nine",
    "no", "nobody", "none", "noone", "nor", "not", "nothing", "now",
    "nowhere", "of", "off", "often", "on", "once", "one", "only", "onto",
    "or", "other", "others", "otherwise", "our", "ours", "ourselves", "out",
    "over", "own", "part", "per", "perhaps", "please", "put", "rather", "re",
    "same", "see", "seem", "seemed", "seeming", "seems", "serious", "several",
    "she", "should", "show", "side", "since", "sincere", "six", "sixty",
    "so", "some", "somehow", "someone", "something", "sometime", "sometimes",
    "somewhere", "still", "such", "system", "take", "ten", "than", "that",
    "the", "their", "them", "themselves", "then", "thence", "there",
    "thereafter", "thereby", "therefore", "therein", "thereupon", "these",
    "they", "thick", "thin", "third", "this", "those", "though", "three",
    "through", "throughout", "thru", "thus", "to", "together", "too", "top",
    "toward", "towards", "twelve", "twenty", "two", "un", "under", "until",
    "up", "upon", "us", "very", "via", "was", "we", "well", "were", "what",
    "whatever", "when", "whence", "whenever", "where", "whereafter",
    "whereas", "whereby", "wherein", "whereupon", "wherever", "whether",
    "which", "while", "whither", "who", "whoever", "whole", "whom", "whose",
    "why", "will", "with", "within", "without", "would", "yet", "you",
    "your", "yours", "yourself", "yourselves"].map String.toList)

/-- The analyzer applied to every chunk of the corpus. -/
def corpusTokens (docs : List (List Char)) : List (List (List Char)) :=
  docs.map sklearnTokenize

/-- Document frequency of a term: the number of chunks whose token list
contains it. -/
def documentFrequency (docs : List (List Char)) (t : List Char) : ℕ :=
  ((corpusTokens docs).filter (fun d => t ∈ d)).length

/-- The vocabulary collected while counting (`_count_vocab`): every token of
every document with the stop words removed, deduplicated; sklearn raises
`ValueError: empty vocabulary ...` when this is empty (which covers the
zero-chunk corpus).  The column order (sklearn sorts terms alphabetically)
is irrelevant to every claim and the first-occurrence order is kept. -/
def rawVocabulary (docs : List (List Char)) : List (List Char) :=
  ((corpusTokens docs).flatten.dedup).filter (fun t => t ∉ englishStopWords)

/-- Total number of occurrences of a term in the corpus, the quantity the
`max_features` cut ranks by. -/
def corpusTermCount (docs : List (List Char)) (t : List Char) : ℕ :=
  (corpusTokens docs).flatten.count t

/-- Descending comparison of (term, corpus count) pairs. -/
def byCountDesc (p q : (List Char) × ℕ) : Prop := q.2 ≤ p.2

instance : DecidableRel byCountDesc :=
  fun p q => inferInstanceAs (Decidable (q.2 ≤ p.2))

instance : IsTotal ((List Char) × ℕ) byCountDesc := ⟨fun p q => le_total q.2 p.2⟩

instance : IsTrans ((List Char) × ℕ) byCountDesc := ⟨fun _ _ _ h1 h2 => le_trans h2 h1⟩

/-- The fitted vocabulary: `min_df=2` pruning (terms present in fewer than 2
chunks are dropped) followed by the `max_features=5000` cut, which keeps the
5000 corpus-wise most frequent remaining terms (tie order modelled as stable;
no claim depends on which terms the cut removes). -/
def fitVocabulary (docs : List (List Char)) : List (List Char) :=
  ((List.insertionSort byCountDesc
      (((rawVocabulary docs).filter (fun t => 2 ≤ documentFrequency docs t)).map
        (fun t => (t, corpusTermCount docs t)))).map Prod.fst).take 5000

/-- Dot product of two score vectors. -/
noncomputable def dotList (x y : List ℝ) : ℝ := (List.zipWith (fun a b => a * b) x y).sum

/-- The smoothed idf of the sklearn defaults (`smooth_idf=True`):
`ln((1 + n) / (1 + df)) + 1` per vocabulary term. -/
noncomputable def idfVector (docs : List (List Char)) : List ℝ :=
  (fitVocabulary docs).map (fun t =>
    Real.log ((1 + (docs.length : ℝ)) / (1 + (documentFrequency docs t : ℝ))) + 1)

/-- Unnormalized tf-idf row of a token list: raw term count times idf,
per vocabulary column. -/
noncomputable def tfidfRowRaw (vocab : List (List Char)) (idf : List ℝ)
    (tokens : List (List Char)) : List ℝ :=
  List.zipWith (fun t w => (tokens.count t : ℝ) * w) vocab idf

/-- sklearn `normalize` with the default `norm=l2`: divide by the L2 norm;
a zero row is returned unchanged. -/
noncomputable def l2normalize (v : List ℝ) : List ℝ :=
  if Real.sqrt (dotList v v) = 0 then v else v.map (fun a => a / Real.sqrt (dotList v v))

/-- A transformed tf-idf row (`TfidfVectorizer` output rows are
L2-normalized). -/
noncomputable def tfidfRow (vocab : List (List Char)) (idf : List ℝ)
    (tokens : List (List Char)) : List ℝ :=
  l2normalize (tfidfRowRaw vocab idf tokens)

/-- `sklearn.metrics.pairwise.cosine_similarity` on two vectors: normalize
each and take the dot product. -/
noncomputable def cosineSim (x y : List ℝ) : ℝ := dotList (l2normalize x) (l2normalize y)

/-- The artifact returned by a successful `build_bm25_index`: the fitted
vectorizer (vocabulary and idf weights) and the tf-idf matrix. -/
structure TfidfIndex where
  vocab : List (List Char)
  idf : List ℝ
  rows : List (List ℝ)

/-- The index produced when fitting succeeds. -/
noncomputable def builtIndex (docs : List (List Char)) : TfidfIndex :=
  { vocab := fitVocabulary docs
    idf := idfVector docs
    rows := (corpusTokens docs).map
      (fun tks => tfidfRow (fitVocabulary docs) (idfVector docs) tks) }

/-- The failure modes of `TfidfVectorizer.fit_transform` reachable from
`build_bm25_index`.  Both are raised as plain `ValueError`; the model keeps
the two message texts apart (`empty vocabulary ...` from counting, and the
pruning-removed-everything messages from `min_df`).  `build_bm25_index`
itself defines no error classes and simply propagates these. -/
inductive VectorizerError
  | emptyVocabulary
  | noTermsRemain
deriving DecidableEq

/-- `build_bm25_index(chunks)`: fit
`TfidfVectorizer(max_features=5000, stop_words=english, min_df=2)` on the
chunks.  Counting an empty effective vocabulary (zero chunks included)
raises the `empty vocabulary` ValueError; `min_df` pruning every term
raises the pruning ValueError; otherwise the vectorizer and matrix are
returned. -/
noncomputable def build_bm25_index (docs : List (List Char)) :
    Except VectorizerError TfidfIndex :=
  if rawVocabulary docs = [] then .error .emptyVocabulary
  else if fitVocabulary docs = [] then .error .noTermsRemain
  else .ok (builtIndex docs)

/-- The per-chunk lexical scores of `bm25_retrieval`:
`cosine_similarity(vectorizer.transform([query]), tfidf_matrix).flatten()`. -/
noncomputable def bm25Scores (idx : TfidfIndex) (query : List Char) : List ℝ :=
  idx.rows.map (fun row => cosineSim (tfidfRow idx.vocab idx.idf (sklearnTokenize query)) row)

end Tfidf

section RankingLemmas

variable {α : Type} [LinearOrderedField α]

theorem dictGet_eq_zero {res : List (ℕ × α)} {i : ℕ} (h : i ∉ res.map Prod.fst) :
    dictGet res i = 0 := by
  induction res with
  | nil => rfl
  | cons p rest ih =>
      simp only [List.map_cons, List.mem_cons, not_or] at h
      have hne : ¬ p.1 = i := fun he => h.1 he.symm
      simp only [dictGet, if_neg hne]
      exact ih h.2

theorem dictGet_mem {res : List (ℕ × α)} {i : ℕ} (h : i ∈ res.map Prod.fst) :
    (i, dictGet res i) ∈ res := by
  induction res with
  | nil => simp at h
  | cons p rest ih =>
      obtain ⟨a, b⟩ := p
      by_cases he : a = i
      · subst he
        simp [dictGet]
      · simp only [dictGet, if_neg he]
        simp only [List.map_cons, List.mem_cons] at h
        rcases h with h | h
        · exact absurd h.symm he
        · exact List.mem_cons_of_mem _ (ih h)

theorem dictGet_eq_of_mem {res : List (ℕ × α)} (hn : (res.map Prod.fst).Nodup)
    {i : ℕ} {s : α} (h : (i, s) ∈ res) : dictGet res i = s := by
  induction res with
  | nil => simp at h
  | cons p rest ih =>
      simp only [List.map_cons, List.nodup_cons] at hn
      rcases List.mem_cons.mp h with he | hm
      · rw [← he]
        simp [dictGet]
      · have hne : p.1 ≠ i := by
          intro he
          exact hn.1 (he ▸ List.mem_map_of_mem Prod.fst hm)
        simp only [dictGet, if_neg hne]
        exact ih hn.2 hm

theorem mem_enum_eq {scores : List α} {p : ℕ × α} (h : p ∈ scores.enum) :
    p.1 < scores.length ∧ p.2 = scores.getD p.1 0 := by
  obtain ⟨i, x⟩ := p
  obtain ⟨hlt, hx⟩ := List.mem_enum h
  exact ⟨hlt, by rw [hx, List.getD_eq_getElem _ _ hlt]⟩

theorem argsortAsc_perm (scores : List α) :
    (argsortAsc scores).Perm (List.range scores.length) := by
  unfold argsortAsc
  calc (List.insertionSort scoreAsc scores.enum).map Prod.fst
      |>.Perm (scores.enum.map Prod.fst) := (List.perm_insertionSort _ _).map _
    _ = List.range scores.length := List.enum_map_fst _

theorem argsortAsc_nodup (scores : List α) : (argsortAsc scores).Nodup :=
  (argsortAsc_perm scores).nodup_iff.mpr (List.nodup_range _)

theorem argsortAsc_length (scores : List α) : (argsortAsc scores).length = scores.length := by
  rw [(argsortAsc_perm scores).length_eq, List.length_range]

theorem lastKRev_mem {β : Type} {l : List β} {k : ℕ} {x : β} (h : x ∈ lastKRev l k) :
    x ∈ l := by
  unfold lastKRev at h
  rw [List.mem_reverse] at h
  split at h
  · exact h
  · exact List.mem_of_mem_drop h

theorem lastKRev_nodup {β : Type} {l : List β} (h : l.Nodup) (k : ℕ) :
    (lastKRev l k).Nodup := by
  unfold lastKRev
  rw [List.nodup_reverse]
  split
  · exact h
  · exact List.Nodup.sublist (List.drop_sublist _ _) h

theorem lastKRev_length {β : Type} (l : List β) {k : ℕ} (hk : 1 ≤ k) :
    (lastKRev l k).length = min k l.length := by
  unfold lastKRev
  rw [if_neg (by omega : ¬ k = 0), List.length_reverse, List.length_drop]
  omega

theorem lastKRev_pairwise {β : Type} {r : β → β → Prop} {l : List β}
    (h : l.Pairwise r) (k : ℕ) : (lastKRev l k).Pairwise (fun a b => r b a) := by
  unfold lastKRev
  rw [List.pairwise_reverse]
  split
  · exact h
  · exact List.Pairwise.sublist (List.drop_sublist _ _) h

theorem lastKRev_map {β γ : Type} (f : β → γ) (l : List β) (k : ℕ) :
    lastKRev (l.map f) k = (lastKRev l k).map f := by
  unfold lastKRev
  rw [List.length_map]
  split <;> simp [List.map_drop, List.map_reverse]

theorem retrievalResults_eq_sorted (scores : List α) (k : ℕ) :
    retrievalResults scores k = lastKRev (List.insertionSort scoreAsc scores.enum) k := by
  unfold retrievalResults topIndices argsortAsc
  rw [lastKRev_map, List.map_map]
  have h : ∀ p ∈ lastKRev (List.insertionSort scoreAsc scores.enum) k,
      ((fun i => (i, scores.getD i 0)) ∘ Prod.fst) p = p := by
    intro p hp
    have hmem : p ∈ scores.enum :=
      ((List.perm_insertionSort _ _).mem_iff).mp (lastKRev_mem hp)
    obtain ⟨-, h2⟩ := mem_enum_eq hmem
    simp only [Function.comp_apply]
    exact Prod.ext rfl h2.symm
  rw [List.map_congr_left h]
  simp

theorem retrievalResults_pairwise (scores : List α) (k : ℕ) :
    (retrievalResults scores k).Pairwise (scoreDesc (α := α)) := by
  rw [retrievalResults_eq_sorted]
  exact lastKRev_pairwise (List.sorted_insertionSort scoreAsc scores.enum) k

theorem retrievalResults_mem {scores : List α} {k : ℕ} {p : ℕ × α}
    (h : p ∈ retrievalResults scores k) :
    p.1 < scores.length ∧ p.2 = scores.getD p.1 0 := by
  rw [retrievalResults_eq_sorted] at h
  exact mem_enum_eq (((List.perm_insertionSort _ _).mem_iff).mp (lastKRev_mem h))

theorem retrievalResults_map_fst (scores : List α) (k : ℕ) :
    (retrievalResults scores k).map Prod.fst = topIndices scores k := by
  unfold retrievalResults
  rw [List.map_map]
  have h : (Prod.fst ∘ fun i : ℕ => (i, scores.getD i 0)) = id := rfl
  rw [h, List.map_id]

theorem retrievalResults_keys_nodup (scores : List α) (k : ℕ) :
    ((retrievalResults scores k).map Prod.fst).Nodup := by
  rw [retrievalResults_map_fst]
  exact lastKRev_nodup (argsortAsc_nodup scores) k

theorem retrievalResults_length (scores : List α) {k : ℕ} (hk : 1 ≤ k) :
    (retrievalResults scores k).length = min k scores.length := by
  unfold retrievalResults topIndices
  rw [List.length_map, lastKRev_length _ hk, argsortAsc_length]

theorem dictGet_retrievalResults {scores : List α} {k i : ℕ}
    (h : i ∈ (retrievalResults scores k).map Prod.fst) :
    dictGet (retrievalResults scores k) i = scores.getD i 0 :=
  (retrievalResults_mem (dictGet_mem h)).2

theorem mem_ids_lt {scores : List α} {k i : ℕ}
    (h : i ∈ (retrievalResults scores k).map Prod.fst) : i < scores.length :=
  (retrievalResults_mem (dictGet_mem h)).1

theorem denseScores_length (query : List Char) (chunks : List (List Char)) :
    (denseScores (α := α) query chunks).length = chunks.length :=
  List.length_map _ _

theorem denseScores_getD {query : List Char} {chunks : List (List Char)} {i : ℕ}
    (h : i < chunks.length) :
    (denseScores (α := α) query chunks).getD i 0
      = (overlapCount query (chunks.getD i []) : α) := by
  have h2 : i < (denseScores (α := α) query chunks).length := by
    rw [denseScores_length]
    exact h
  rw [List.getD_eq_getElem _ _ h2, List.getD_eq_getElem _ _ h]
  unfold denseScores
  simp [List.getElem_map]

theorem hybridCandidates_map_fst (b d : List (ℕ × α)) (a : α) (order : List ℕ) :
    (hybridCandidates b d a order).map Prod.fst = order := by
  unfold hybridCandidates
  rw [List.map_map]
  have h : (Prod.fst ∘ fun i : ℕ => (i, fusedScore b d a i)) = id := rfl
  rw [h, List.map_id]

theorem hybridCandidates_mem {b d : List (ℕ × α)} {a : α} {order : List ℕ} {p : ℕ × α}
    (h : p ∈ hybridCandidates b d a order) :
    p.1 ∈ order ∧ p.2 = fusedScore b d a p.1 := by
  unfold hybridCandidates at h
  obtain ⟨i, hi, rfl⟩ := List.mem_map.mp h
  exact ⟨hi, rfl⟩

theorem hybridCandidates_nodup {order : List ℕ} (h : order.Nodup)
    (b d : List (ℕ × α)) (a : α) : (hybridCandidates b d a order).Nodup :=
  List.Nodup.map (fun _ _ hij => congrArg Prod.fst hij) h

theorem hybrid_mem {lexScores : List α} {query : List Char} {chunks : List (List Char)}
    {k : ℕ} {a : α} {order : List ℕ} {p : ℕ × α}
    (h : p ∈ hybrid_retrieval lexScores query chunks k a order) :
    p.1 ∈ order ∧
      p.2 = fusedScore (bm25_retrieval lexScores k) (dense_retrieval_mock query chunks k) a p.1 := by
  unfold hybrid_retrieval at h
  exact hybridCandidates_mem
    (((List.perm_insertionSort _ _).mem_iff).mp (List.mem_of_mem_take h))

theorem hybrid_sorted (lexScores : List α) (query : List Char) (chunks : List (List Char))
    (k : ℕ) (a : α) (order : List ℕ) :
    (hybrid_retrieval lexScores query chunks k a order).Pairwise (scoreDesc (α := α)) := by
  unfold hybrid_retrieval
  exact List.Pairwise.sublist (List.take_sublist _ _)
    (List.sorted_insertionSort scoreDesc _)

theorem hybrid_length (lexScores : List α) (query : List Char) (chunks : List (List Char))
    (k : ℕ) (a : α) (order : List ℕ) :
    (hybrid_retrieval lexScores query chunks k a order).length = min k order.length := by
  unfold hybrid_retrieval
  rw [List.length_take, (List.perm_insertionSort _ _).length_eq]
  unfold hybridCandidates
  rw [List.length_map]

theorem hybrid_keys_nodup {lexScores : List α} {query : List Char}
    {chunks : List (List Char)} {k : ℕ} {a : α} {order : List ℕ} (ho : order.Nodup) :
    ((hybrid_retrieval lexScores query chunks k a order).map Prod.fst).Nodup := by
  unfold hybrid_retrieval
  have h1 : ((List.insertionSort scoreDesc
      (hybridCandidates (bm25_retrieval lexScores k)
        (dense_retrieval_mock query chunks k) a order)).map Prod.fst).Perm order := by
    calc (List.insertionSort scoreDesc _).map Prod.fst
        |>.Perm ((hybridCandidates (bm25_retrieval lexScores k)
          (dense_retrieval_mock query chunks k) a order).map Prod.fst) :=
          (List.perm_insertionSort _ _).map _
      _ = order := hybridCandidates_map_fst _ _ _ _
  exact List.Nodup.sublist (List.Sublist.map _ (List.take_sublist _ _))
    (h1.nodup_iff.mpr ho)

theorem pairwise_strict_of_snd_nodup {l : List (ℕ × α)}
    (hs : l.Pairwise (scoreDesc (α := α))) (hn : (l.map Prod.snd).Nodup) :
    l.Pairwise (fun p q => q.2 < p.2) := by
  have h2 : l.Pairwise (fun p q : ℕ × α => p.2 ≠ q.2) := List.pairwise_map.mp hn
  exact (hs.and h2).imp (fun h => lt_of_le_of_ne h.1 (fun he => h.2 he.symm))

theorem pos_take_countP {l : List (ℕ × α)} (hs : l.Pairwise (scoreDesc (α := α)))
    (hz : ∀ p ∈ l, 0 < p.2 ∨ p.2 = 0) :
    l.take (l.countP (fun p => decide (0 < p.2))) = l.filter (fun p => decide (0 < p.2)) := by
  induction l with
  | nil => simp
  | cons x xs ih =>
      have hs2 := List.pairwise_cons.mp hs
      rcases hz x (List.mem_cons_self _ _) with hxpos | hxzero
      · rw [List.countP_cons, List.filter_cons, if_pos (by simpa using hxpos),
          if_pos (by simpa using hxpos), List.take_succ_cons,
          ih hs2.2 (fun p hp => hz p (List.mem_cons_of_mem _ hp))]
      · have hnone : ∀ p ∈ x :: xs, ¬ (0 < p.2) := by
          intro p hp
          rcases List.mem_cons.mp hp with rfl | hp2
          · rw [hxzero]
            exact lt_irrefl 0
          · intro hpos
            have hle : p.2 ≤ x.2 := hs2.1 p hp2
            rw [hxzero] at hle
            exact absurd (lt_of_lt_of_le hpos hle) (lt_irrefl 0)
        have hc : (x :: xs).countP (fun p => decide (0 < p.2)) = 0 :=
          List.countP_eq_zero.mpr (fun p hp => by simpa using hnone p hp)
        have hf : (x :: xs).filter (fun p => decide (0 < p.2)) = [] :=
          List.filter_eq_nil_iff.mpr (fun p hp => by simpa using hnone p hp)
        rw [hc, hf, List.take_zero]

theorem takeSort_eq_base (base : List (ℕ × α)) (order : List ℕ) (f : ℕ → α)
    (hkeys : (base.map Prod.fst).Nodup)
    (hpos : ∀ p ∈ base, 0 < p.2)
    (hdesc : base.Pairwise (fun p q => q.2 < p.2))
    (hord : order.Nodup)
    (hsub : ∀ i ∈ base.map Prod.fst, i ∈ order)
    (hf : ∀ i ∈ order, f i = dictGet base i) :
    (List.insertionSort scoreDesc (order.map (fun i => (i, f i)))).take base.length
      = base := by
  have hLperm : (List.insertionSort scoreDesc (order.map (fun i => (i, f i)))).Perm
      (order.map (fun i => (i, f i))) := List.perm_insertionSort _ _
  have hLsorted : (List.insertionSort scoreDesc
      (order.map (fun i => (i, f i)))).Pairwise (scoreDesc (α := α)) :=
    List.sorted_insertionSort scoreDesc (order.map (fun i => (i, f i)))
  have hfval : ∀ i ∈ order,
      (i ∈ base.map Prod.fst ∧ (i, f i) ∈ base ∧ 0 < f i) ∨
      (i ∉ base.map Prod.fst ∧ f i = 0) := by
    intro i hi
    by_cases hmem : i ∈ base.map Prod.fst
    · have h1 : (i, dictGet base i) ∈ base := dictGet_mem hmem
      have h2 : f i = dictGet base i := hf i hi
      refine Or.inl ⟨hmem, ?_, ?_⟩
      · rw [h2]
        exact h1
      · rw [h2]
        exact hpos _ h1
    · exact Or.inr ⟨hmem, (hf i hi).trans (dictGet_eq_zero hmem)⟩
  have hfilter_mem : ∀ p : ℕ × α,
      p ∈ (order.map (fun i => (i, f i))).filter (fun q => decide (0 < q.2)) ↔ p ∈ base := by
    intro p
    rw [List.mem_filter]
    constructor
    · rintro ⟨hp, hpos2⟩
      obtain ⟨i, hi, rfl⟩ := List.mem_map.mp hp
      rw [decide_eq_true_eq] at hpos2
      rcases hfval i hi with ⟨-, hmem, -⟩ | ⟨-, hzero⟩
      · exact hmem
      · rw [show (i, f i).2 = f i from rfl, hzero] at hpos2
        exact absurd hpos2 (lt_irrefl 0)
    · intro hb
      have hb2 : (p.1, p.2) ∈ base := by
        rw [Prod.mk.eta]
        exact hb
      have hkey : p.1 ∈ base.map Prod.fst := List.mem_map_of_mem _ hb
      have hio : p.1 ∈ order := hsub _ hkey
      have hfp : f p.1 = p.2 := by
        rw [hf _ hio]
        exact dictGet_eq_of_mem hkeys hb2
      constructor
      · have hm : (p.1, f p.1) ∈ order.map (fun i => (i, f i)) := List.mem_map_of_mem _ hio
        rwa [hfp, Prod.mk.eta] at hm
      · rw [decide_eq_true_eq]
        exact hpos _ hb
  have hz : ∀ p ∈ List.insertionSort scoreDesc (order.map (fun i => (i, f i))),
      0 < p.2 ∨ p.2 = 0 := by
    intro p hp
    obtain ⟨i, hi, rfl⟩ := List.mem_map.mp (hLperm.mem_iff.mp hp)
    rcases hfval i hi with ⟨-, -, hpos2⟩ | ⟨-, hzero⟩
    · exact Or.inl hpos2
    · exact Or.inr hzero
  have hpairs_nodup : (order.map (fun i => (i, f i))).Nodup :=
    List.Nodup.map (fun _ _ hab => congrArg Prod.fst hab) hord
  have hbase_nodup : base.Nodup := List.Nodup.of_map _ hkeys
  have hfilter_perm : ((List.insertionSort scoreDesc (order.map fun i => (i, f i))).filter
      (fun q => decide (0 < q.2))).Perm base := by
    have h1 := hLperm.filter (fun q => decide (0 < q.2))
    have h2 : ((order.map fun i => (i, f i)).filter (fun q => decide (0 < q.2))).Perm base :=
      (List.perm_ext_iff_of_nodup (List.Nodup.filter _ hpairs_nodup) hbase_nodup).mpr
        hfilter_mem
    exact h1.trans h2
  have hcount : (List.insertionSort scoreDesc (order.map fun i => (i, f i))).countP
      (fun q => decide (0 < q.2)) = base.length := by
    rw [List.countP_eq_length_filter]
    exact hfilter_perm.length_eq
  have htake : (List.insertionSort scoreDesc (order.map fun i => (i, f i))).take base.length
      = (List.insertionSort scoreDesc (order.map fun i => (i, f i))).filter
          (fun q => decide (0 < q.2)) := by
    rw [← hcount]
    exact pos_take_countP hLsorted hz
  rw [htake]
  have hfil_sorted : ((List.insertionSort scoreDesc (order.map fun i => (i, f i))).filter
      (fun q => decide (0 < q.2))).Pairwise (scoreDesc (α := α)) :=
    List.Pairwise.sublist (List.filter_sublist _) hLsorted
  have hbsnd : (base.map Prod.snd).Nodup :=
    List.pairwise_map.mpr (hdesc.imp (fun h => ne_of_gt h))
  have hfsnd : (((List.insertionSort scoreDesc (order.map fun i => (i, f i))).filter
      (fun q => decide (0 < q.2))).map Prod.snd).Nodup :=
    ((hfilter_perm.map Prod.snd).nodup_iff).mpr hbsnd
  have hfil_strict := ((hfil_sorted.and (List.pairwise_map.mp hfsnd)).imp
    (fun h => lt_of_le_of_ne h.1 (fun he => h.2 he.symm)))
  haveI : IsAntisymm (ℕ × α) (fun p q => q.2 < p.2) :=
    ⟨fun _ _ h1 h2 => absurd (lt_trans h1 h2) (lt_irrefl _)⟩
  exact List.eq_of_perm_of_sorted hfilter_perm hfil_strict hdesc

end RankingLemmas

section TfidfLemmas

variable {α : Type} [LinearOrderedField α]

theorem isWhitespace_cases {c : Char} (h : c.isWhitespace = true) :
    c = ' ' ∨ c = '\t' ∨ c = '\r' ∨ c = '\n' := by
  simp [Char.isWhitespace] at h
  tauto

theorem toLower_whitespace {c : Char} (h : c.isWhitespace = true) :
    (Char.toLower c).isWhitespace = true := by
  rcases isWhitespace_cases h with rfl | rfl | rfl | rfl <;> decide

theorem isWordChar_of_whitespace {c : Char} (h : c.isWhitespace = true) :
    isWordChar c = false := by
  rcases isWhitespace_cases h with rfl | rfl | rfl | rfl <;> decide

theorem pyWordsAux_blank {s : List Char} (h : ∀ c ∈ s, c.isWhitespace = true) :
    pyWordsAux s [] = [] := by
  induction s with
  | nil => rfl
  | cons c rest ih =>
      have hc : c.isWhitespace = true := h c (List.mem_cons_self _ _)
      simp only [pyWordsAux, hc, if_true]
      exact ih (fun c' hc' => h c' (List.mem_cons_of_mem _ hc'))

theorem pyWords_blank_of_lower {s : List Char} (h : ∀ c ∈ s, c.isWhitespace = true) :
    pyWords (pyLower s) = [] := by
  unfold pyWords
  apply pyWordsAux_blank
  intro c hc
  obtain ⟨c0, hc0, rfl⟩ := List.mem_map.mp hc
  exact toLower_whitespace (h c0 hc0)

theorem wordRunsAux_nonword {s : List Char} (h : ∀ c ∈ s, isWordChar c = false) :
    wordRunsAux s [] = [] := by
  induction s with
  | nil => rfl
  | cons c rest ih =>
      have hc : isWordChar c = false := h c (List.mem_cons_self _ _)
      simp only [wordRunsAux, hc]
      simp only [Bool.false_eq_true, if_false, if_pos rfl]
      exact ih (fun c' hc' => h c' (List.mem_cons_of_mem _ hc'))

theorem sklearnTokenize_blank {s : List Char} (h : ∀ c ∈ s, c.isWhitespace = true) :
    sklearnTokenize s = [] := by
  unfold sklearnTokenize wordRuns
  rw [wordRunsAux_nonword]
  · rfl
  · intro c hc
    obtain ⟨c0, hc0, rfl⟩ := List.mem_map.mp hc
    exact isWordChar_of_whitespace (toLower_whitespace (h c0 hc0))

theorem overlapCount_blank {query : List Char} (h : ∀ c ∈ query, c.isWhitespace = true)
    (c : List Char) : overlapCount query c = 0 := by
  unfold overlapCount
  rw [pyWords_blank_of_lower h]
  rfl

theorem dotList_zero_left {x : List ℝ} (h : ∀ a ∈ x, a = 0) : ∀ y, dotList x y = 0 := by
  induction x with
  | nil => intro y; rfl
  | cons a xs ih =>
      intro y
      cases y with
      | nil => rfl
      | cons b ys =>
          have ha : a = 0 := h a (List.mem_cons_self _ _)
          have hrest := ih (fun a' ha' => h a' (List.mem_cons_of_mem _ ha')) ys
          unfold dotList at hrest ⊢
          simp only [List.zipWith_cons_cons, List.sum_cons]
          rw [ha, zero_mul, zero_add]
          exact hrest

theorem l2normalize_zero {v : List ℝ} (h : ∀ a ∈ v, a = 0) :
    ∀ a ∈ l2normalize v, a = 0 := by
  unfold l2normalize
  split
  · exact h
  · intro a ha
    obtain ⟨b, hb, rfl⟩ := List.mem_map.mp ha
    rw [h b hb, zero_div]

theorem cosineSim_zero_left {x : List ℝ} (h : ∀ a ∈ x, a = 0) (y : List ℝ) :
    cosineSim x y = 0 := by
  unfold cosineSim
  exact dotList_zero_left (l2normalize_zero h) _

theorem tfidfRowRaw_zero : ∀ (vocab : List (List Char)) (idf : List ℝ)
    (tokens : List (List Char)), (∀ t ∈ tokens, t ∉ vocab) →
    ∀ a ∈ tfidfRowRaw vocab idf tokens, a = 0
  | [], _, _, _ => by simp [tfidfRowRaw]
  | _ :: _, [], _, _ => by simp [tfidfRowRaw]
  | t :: ts, w :: ws, tokens, h => by
      intro a ha
      simp only [tfidfRowRaw, List.zipWith_cons_cons, List.mem_cons] at ha
      rcases ha with rfl | ha
      · have hc : tokens.count t = 0 :=
          List.count_eq_zero.mpr (fun hmem => h t hmem (List.mem_cons_self _ _))
        rw [hc]
        simp
      · exact tfidfRowRaw_zero ts ws tokens
          (fun tok htok hmem => h tok htok (List.mem_cons_of_mem _ hmem)) a ha

theorem bm25Scores_oov {idx : TfidfIndex} {query : List Char}
    (h : ∀ t ∈ sklearnTokenize query, t ∉ idx.vocab) :
    ∀ s ∈ bm25Scores idx query, s = 0 := by
  intro s hs
  unfold bm25Scores at hs
  obtain ⟨row, _, rfl⟩ := List.mem_map.mp hs
  unfold tfidfRow
  exact cosineSim_zero_left (l2normalize_zero (tfidfRowRaw_zero _ _ _ h)) row

theorem getD_eq_zero_of_all_zero {scores : List α} (h : ∀ s ∈ scores, s = 0) (i : ℕ) :
    scores.getD i 0 = 0 := by
  by_cases hi : i < scores.length
  · rw [List.getD_eq_getElem _ _ hi]
    exact h _ (List.getElem_mem hi)
  · exact List.getD_eq_default _ _ (by omega)

theorem dictGet_retrievalResults_zero {scores : List α} (h : ∀ s ∈ scores, s = 0)
    (k i : ℕ) : dictGet (retrievalResults scores k) i = 0 := by
  by_cases hmem : i ∈ (retrievalResults scores k).map Prod.fst
  · rw [dictGet_retrievalResults hmem]
    exact getD_eq_zero_of_all_zero h i
  · exact dictGet_eq_zero hmem

theorem fitVocabulary_subset_raw {docs : List (List Char)} :
    ∀ t ∈ fitVocabulary docs, t ∈ rawVocabulary docs := by
  intro t ht
  unfold fitVocabulary at ht
  have h1 := List.mem_of_mem_take ht
  obtain ⟨p, hp, rfl⟩ := List.mem_map.mp h1
  have h2 : p ∈ ((rawVocabulary docs).filter
      (fun t => 2 ≤ documentFrequency docs t)).map
        (fun t => (t, corpusTermCount docs t)) :=
    (List.perm_insertionSort _ _).mem_iff.mp hp
  obtain ⟨t', ht', rfl⟩ := List.mem_map.mp h2
  exact List.mem_of_mem_filter ht'

theorem stopword_not_in_rawVocabulary {docs : List (List Char)} {t : List Char}
    (h : t ∈ englishStopWords) : t ∉ rawVocabulary docs := by
  unfold rawVocabulary
  intro hmem
  have h2 := List.of_mem_filter hmem
  rw [decide_eq_true_eq] at h2
  exact h2 h

theorem build_ok_vocab {docs : List (List Char)} {idx : TfidfIndex}
    (h : build_bm25_index docs = .ok idx) : idx.vocab = fitVocabulary docs := by
  unfold build_bm25_index at h
  by_cases h1 : rawVocabulary docs = []
  · rw [if_pos h1] at h
    exact absurd h (by simp)
  · rw [if_neg h1] at h
    by_cases h2 : fitVocabulary docs = []
    · rw [if_pos h2] at h
      exact absurd h (by simp)
    · rw [if_neg h2] at h
      have h3 : builtIndex docs = idx := by
        injection h
      rw [← h3]
      rfl

theorem rawVocabulary_ne_nil_of_fit {docs : List (List Char)}
    (h : fitVocabulary docs ≠ []) : rawVocabulary docs ≠ [] := by
  intro hraw
  apply h
  refine List.eq_nil_iff_forall_not_mem.mpr (fun t ht => ?_)
  have h2 := fitVocabulary_subset_raw t ht
  rw [hraw] at h2
  exact absurd h2 (List.not_mem_nil t)

theorem build_succeeds {docs : List (List Char)} (h : fitVocabulary docs ≠ []) :
    build_bm25_index docs = .ok (builtIndex docs) := by
  unfold build_bm25_index
  rw [if_neg (rawVocabulary_ne_nil_of_fit h), if_neg h]

theorem build_fails_iff {docs : List (List Char)} :
    (∃ e, build_bm25_index docs = .error e) ↔ fitVocabulary docs = [] := by
  unfold build_bm25_index
  by_cases h1 : rawVocabulary docs = []
  · rw [if_pos h1]
    constructor
    · intro _
      refine List.eq_nil_iff_forall_not_mem.mpr (fun t ht => ?_)
      have h2 := fitVocabulary_subset_raw t ht
      rw [h1] at h2
      exact absurd h2 (List.not_mem_nil t)
    · intro _
      exact ⟨_, rfl⟩
  · rw [if_neg h1]
    by_cases h2 : fitVocabulary docs = []
    · rw [if_pos h2]
      exact ⟨fun _ => h2, fun _ => ⟨_, rfl⟩⟩
    · rw [if_neg h2]
      constructor
      · rintro ⟨e, he⟩
        exact absurd he (by simp)
      · intro h
        exact absurd h h2

end TfidfLemmas

section Claims

/-- C1: for every query, index (represented by the per-chunk lexical cosine
scores it induces), chunk list, top_k ≥ 1, alpha in [0,1] and admissible
candidate enumeration, the fused score `hybrid_retrieval` assigns to each
candidate chunk id in the union of the lexical top-k and overlap top-k
candidate sets equals alpha times the lexical score plus (1 - alpha) times
the overlap score, where a chunk absent from one scorer result list
contributes 0 for that side; returned results carry exactly these fused
scores. -/
theorem C1_fusion_formula {α : Type} [LinearOrderedField α]
    (lexScores : List α) (query : List Char) (chunks : List (List Char))
    (k : ℕ) (a : α) (order : List ℕ)
    (_hk : 1 ≤ k) (_ha0 : 0 ≤ a) (_ha1 : a ≤ 1)
    (_hord : CandidateOrder lexScores query chunks k order) :
    (∀ i ∈ order,
      fusedScore (bm25_retrieval lexScores k) (dense_retrieval_mock query chunks k) a i
        = a * (if i ∈ bm25Ids lexScores k then lexScores.getD i 0 else 0)
          + (1 - a) *
            (if i ∈ denseIds (α := α) query chunks k
              then (overlapCount query (chunks.getD i []) : α) else 0)) ∧
    (∀ p ∈ hybrid_retrieval lexScores query chunks k a order,
      p.2 = fusedScore (bm25_retrieval lexScores k)
        (dense_retrieval_mock query chunks k) a p.1) := by
  constructor
  · intro i hi
    have hb : dictGet (bm25_retrieval lexScores k) i
        = (if i ∈ bm25Ids lexScores k then lexScores.getD i 0 else 0) := by
      by_cases hmem : i ∈ bm25Ids lexScores k
      · rw [if_pos hmem]
        exact dictGet_retrievalResults hmem
      · rw [if_neg hmem]
        exact dictGet_eq_zero hmem
    have hd : dictGet (dense_retrieval_mock query chunks k) i
        = (if i ∈ denseIds (α := α) query chunks k
            then (overlapCount query (chunks.getD i []) : α) else 0) := by
      by_cases hmem : i ∈ denseIds (α := α) query chunks k
      · rw [if_pos hmem]
        have h1 : dictGet (dense_retrieval_mock (α := α) query chunks k) i
            = (denseScores (α := α) query chunks).getD i 0 :=
          dictGet_retrievalResults hmem
        have h2 : i < chunks.length := by
          have h3 : i < (denseScores (α := α) query chunks).length := mem_ids_lt hmem
          rwa [denseScores_length] at h3
        rw [h1, denseScores_getD h2]
      · rw [if_neg hmem]
        exact dictGet_eq_zero hmem
    unfold fusedScore
    rw [hb, hd]
  · intro p hp
    exact (hybrid_mem hp).2

/-- Witness for C1 at a concrete input: lexical scores [1, 0], query "aa",
chunks ["aa", "aa bb"], top_k 1, alpha 1, candidate order [0, 1]. -/
theorem C1_fusion_formula_witness :
    (1 ≤ 1 ∧ (0 : ℚ) ≤ 1 ∧ (1 : ℚ) ≤ 1 ∧
      CandidateOrder ([1, 0] : List ℚ) "aa".toList ["aa".toList, "aa bb".toList] 1 [0, 1]) ∧
    ((∀ i ∈ [0, 1],
      fusedScore (bm25_retrieval ([1, 0] : List ℚ) 1)
          (dense_retrieval_mock "aa".toList ["aa".toList, "aa bb".toList] 1) 1 i
        = 1 * (if i ∈ bm25Ids ([1, 0] : List ℚ) 1 then ([1, 0] : List ℚ).getD i 0 else 0)
          + (1 - 1) *
            (if i ∈ denseIds (α := ℚ) "aa".toList ["aa".toList, "aa bb".toList] 1
              then (overlapCount "aa".toList (["aa".toList, "aa bb".toList].getD i []) : ℚ)
              else 0)) ∧
    (∀ p ∈ hybrid_retrieval ([1, 0] : List ℚ) "aa".toList ["aa".toList, "aa bb".toList] 1 1 [0, 1],
      p.2 = fusedScore (bm25_retrieval ([1, 0] : List ℚ) 1)
        (dense_retrieval_mock "aa".toList ["aa".toList, "aa bb".toList] 1) 1 p.1)) :=
  ⟨⟨by decide, by decide, by decide, by decide⟩,
    C1_fusion_formula _ _ _ _ _ _ (by decide) (by decide) (by decide) (by decide)⟩

/-- C2: for every query, index, chunk list, top_k ≥ 1, alpha in [0,1] and
admissible candidate enumeration, `hybrid_retrieval` returns exactly
min(top_k, size of the candidate union) results, with pairwise distinct
chunk ids, all drawn from the union of the two component result id sets. -/
theorem C2_output_shape {α : Type} [LinearOrderedField α]
    (lexScores : List α) (query : List Char) (chunks : List (List Char))
    (k : ℕ) (a : α) (order : List ℕ)
    (_hk : 1 ≤ k) (_ha0 : 0 ≤ a) (_ha1 : a ≤ 1)
    (hord : CandidateOrder lexScores query chunks k order) :
    (hybrid_retrieval lexScores query chunks k a order).length = min k order.length ∧
    ((hybrid_retrieval lexScores query chunks k a order).map Prod.fst).Nodup ∧
    (∀ p ∈ hybrid_retrieval lexScores query chunks k a order,
      p.1 ∈ bm25Ids lexScores k ∨ p.1 ∈ denseIds (α := α) query chunks k) :=
  ⟨hybrid_length lexScores query chunks k a order,
    hybrid_keys_nodup hord.1,
    fun p hp => hord.2.1 p.1 (hybrid_mem hp).1⟩

/-- Witness for C2 at the concrete input of the C1 witness. -/
theorem C2_output_shape_witness :
    (1 ≤ 1 ∧ (0 : ℚ) ≤ 1 ∧ (1 : ℚ) ≤ 1 ∧
      CandidateOrder ([1, 0] : List ℚ) "aa".toList ["aa".toList, "aa bb".toList] 1 [0, 1]) ∧
    ((hybrid_retrieval ([1, 0] : List ℚ) "aa".toList ["aa".toList, "aa bb".toList] 1 1
        [0, 1]).length = min 1 ([0, 1] : List ℕ).length ∧
    ((hybrid_retrieval ([1, 0] : List ℚ) "aa".toList ["aa".toList, "aa bb".toList] 1 1
        [0, 1]).map Prod.fst).Nodup ∧
    (∀ p ∈ hybrid_retrieval ([1, 0] : List ℚ) "aa".toList ["aa".toList, "aa bb".toList] 1 1 [0, 1],
      p.1 ∈ bm25Ids ([1, 0] : List ℚ) 1 ∨
        p.1 ∈ denseIds (α := ℚ) "aa".toList ["aa".toList, "aa bb".toList] 1)) :=
  ⟨⟨by decide, by decide, by decide, by decide⟩,
    C2_output_shape _ _ _ _ _ _ (by decide) (by decide) (by decide) (by decide)⟩

/-- C3 counterexample: the claim asserts that `bm25_retrieval` breaks score
ties by ascending chunk id.  On the two-chunk corpus with lexical scores
[0, 0] (any out-of-vocabulary query realizes this) and top_k = 2 the code
returns chunk 1 before chunk 0: on a 2-element array numpy `argsort` is
insertion sort, hence stable ascending, and the last-k slice reversed
lists the tied chunks in descending position order here. -/
theorem C3_counterexample :
    bm25_retrieval ([0, 0] : List ℚ) 2 = [(1, 0), (0, 0)] ∧
    ¬ SortedDescTiesAsc (bm25_retrieval ([0, 0] : List ℚ) 2) := by
  constructor
  · decide
  · decide

/-- C3 amended: the hybrid result list is sorted by non-increasing fused
score (for every admissible candidate enumeration), and the lexical scorer
output is sorted by non-increasing similarity.  Equal scores are NOT broken
by ascending chunk id (the counterexample refutes that), and no particular
tie order is guaranteed at all: the lexical tie order is whatever numpy
argsort produces (unstable above its 16-element insertion-sort regime) and
the hybrid tie order is the CPython set-iteration order of the candidate
ids. -/
theorem C3_sorted_nonincreasing {α : Type} [LinearOrderedField α]
    (lexScores : List α) (query : List Char) (chunks : List (List Char))
    (k : ℕ) (a : α) (order : List ℕ)
    (_hk : 1 ≤ k) (_ha0 : 0 ≤ a) (_ha1 : a ≤ 1)
    (_hord : CandidateOrder lexScores query chunks k order) :
    (hybrid_retrieval lexScores query chunks k a order).Pairwise (scoreDesc (α := α)) ∧
    (bm25_retrieval lexScores k).Pairwise (scoreDesc (α := α)) :=
  ⟨hybrid_sorted lexScores query chunks k a order,
    retrievalResults_pairwise lexScores k⟩

/-- Witness for the amended C3 at the concrete input of the C1 witness. -/
theorem C3_sorted_nonincreasing_witness :
    (1 ≤ 1 ∧ (0 : ℚ) ≤ 1 ∧ (1 : ℚ) ≤ 1 ∧
      CandidateOrder ([1, 0] : List ℚ) "aa".toList ["aa".toList, "aa bb".toList] 1 [0, 1]) ∧
    ((hybrid_retrieval ([1, 0] : List ℚ) "aa".toList ["aa".toList, "aa bb".toList] 1 1
        [0, 1]).Pairwise (scoreDesc (α := ℚ)) ∧
    (bm25_retrieval ([1, 0] : List ℚ) 1).Pairwise (scoreDesc (α := ℚ))) :=
  ⟨⟨by decide, by decide, by decide, by decide⟩,
    C3_sorted_nonincreasing _ _ _ _ _ _ (by decide) (by decide) (by decide) (by decide)⟩

/-- C4 counterexample: with alpha = 1.0 the code does NOT always rank like
the pure lexical scorer.  Two chunks, lexical scores [0, 0] (realized by any
out-of-vocabulary query), query "x" overlapping only chunk 0, top_k = 1,
candidate order [0, 1] (the CPython iteration order of the int set
with elements 0 and 1): the lexical scorer alone returns chunk 1 (tie at 0,
descending position), but the hybrid with alpha = 1 returns chunk 0 —
the overlap-only candidate displaces the lexical pick on the fused-score
tie at 0. -/
theorem C4_counterexample :
    CandidateOrder ([0, 0] : List ℚ) "x".toList ["x y".toList, "y z".toList] 1 [0, 1] ∧
    (hybrid_retrieval ([0, 0] : List ℚ) "x".toList ["x y".toList, "y z".toList] 1 1
        [0, 1]).map Prod.fst = [0] ∧
    (bm25_retrieval ([0, 0] : List ℚ) 1).map Prod.fst = [1] ∧
    ([0] : List ℕ) ≠ [1] := by
  refine ⟨by decide, ?_, by decide, by decide⟩
  norm_num [hybrid_retrieval, hybridCandidates, fusedScore, dictGet, bm25_retrieval,
    dense_retrieval_mock, retrievalResults, topIndices, argsortAsc, lastKRev, denseScores,
    overlapCount, pyWords, pyWordsAux, pyLower, List.insertionSort, List.orderedInsert,
    scoreAsc, scoreDesc]

/-- C4 amended: with alpha = 1.0, `hybrid_retrieval` returns exactly the
lexical scorer top-k list whenever that list has pairwise distinct, strictly
positive scores and full length top_k; symmetrically, with alpha = 0.0 it
returns exactly the overlap scorer top-k under the same conditions on that
list.  (The counterexample shows the distinctness/positivity proviso cannot
be dropped: ties at score 0 let the other scorer candidates displace or
reorder the pure ranking.) -/
theorem C4_alpha_extremes {α : Type} [LinearOrderedField α]
    (lexScores : List α) (query : List Char) (chunks : List (List Char))
    (k : ℕ) (order : List ℕ)
    (_hk : 1 ≤ k)
    (hord : CandidateOrder lexScores query chunks k order) :
    ((((bm25_retrieval lexScores k).map Prod.snd).Nodup ∧
      (∀ p ∈ bm25_retrieval lexScores k, 0 < p.2) ∧
      (bm25_retrieval lexScores k).length = k) →
      hybrid_retrieval lexScores query chunks k 1 order = bm25_retrieval lexScores k) ∧
    ((((dense_retrieval_mock (α := α) query chunks k).map Prod.snd).Nodup ∧
      (∀ p ∈ dense_retrieval_mock (α := α) query chunks k, 0 < p.2) ∧
      (dense_retrieval_mock (α := α) query chunks k).length = k) →
      hybrid_retrieval lexScores query chunks k 0 order
        = dense_retrieval_mock query chunks k) := by
  obtain ⟨hord1, hmem1, hsubB, hsubD⟩ := hord
  constructor
  · rintro ⟨hsnd, hpos, hlen⟩
    have hdesc := pairwise_strict_of_snd_nodup (retrievalResults_pairwise lexScores k) hsnd
    have hfs : ∀ i ∈ order,
        fusedScore (bm25_retrieval lexScores k) (dense_retrieval_mock query chunks k) 1 i
          = dictGet (bm25_retrieval lexScores k) i := by
      intro i _
      unfold fusedScore
      rw [one_mul, sub_self, zero_mul, add_zero]
    have heq := takeSort_eq_base (bm25_retrieval lexScores k) order _
      (retrievalResults_keys_nodup lexScores k) hpos hdesc hord1 hsubB hfs
    unfold hybrid_retrieval hybridCandidates
    nth_rewrite 1 [← hlen]
    exact heq
  · rintro ⟨hsnd, hpos, hlen⟩
    have hdesc := pairwise_strict_of_snd_nodup
      (retrievalResults_pairwise (denseScores (α := α) query chunks) k) hsnd
    have hfs : ∀ i ∈ order,
        fusedScore (bm25_retrieval lexScores k) (dense_retrieval_mock query chunks k) 0 i
          = dictGet (dense_retrieval_mock (α := α) query chunks k) i := by
      intro i _
      unfold fusedScore
      rw [zero_mul, sub_zero, one_mul, zero_add]
    have heq := takeSort_eq_base (dense_retrieval_mock (α := α) query chunks k) order _
      (retrievalResults_keys_nodup (denseScores (α := α) query chunks) k) hpos hdesc hord1
      hsubD hfs
    unfold hybrid_retrieval hybridCandidates
    nth_rewrite 1 [← hlen]
    exact heq

/-- Witness for the amended C4 at a concrete input: lexical scores [1, 2],
query "aa", chunks ["bb", "aa"], top_k 1, candidate order [1]; both scorer
result lists are [(1, score)] with a single positive score, and the hybrid
at the two alpha extremes reproduces them exactly. -/
theorem C4_alpha_extremes_witness :
    (1 ≤ 1 ∧ CandidateOrder ([1, 2] : List ℚ) "aa".toList ["bb".toList, "aa".toList] 1 [1]) ∧
    hybrid_retrieval ([1, 2] : List ℚ) "aa".toList ["bb".toList, "aa".toList] 1 1 [1]
      = bm25_retrieval ([1, 2] : List ℚ) 1 ∧
    hybrid_retrieval ([1, 2] : List ℚ) "aa".toList ["bb".toList, "aa".toList] 1 0 [1]
      = dense_retrieval_mock "aa".toList ["bb".toList, "aa".toList] 1 :=
  ⟨⟨by decide, by decide⟩,
    (C4_alpha_extremes _ _ _ _ _ (by decide) (by decide)).1
      ⟨by decide, by decide, by decide⟩,
    (C4_alpha_extremes _ _ _ _ _ (by decide) (by decide)).2
      ⟨by decide, by decide, by decide⟩⟩

/-- C9: `build_bm25_index` and `hybrid_retrieval` are deterministic
functions of their inputs.  The embedding is pure; the code-level content is
that `TfidfVectorizer`, `argsort` and the CPython iteration order of an int
set (ints hash to themselves, unsalted) are all deterministic, so two runs
with the same corpus produce the same vocabulary and per-chunk weight rows,
and two retrieve calls with the same inputs produce identical output. -/
theorem C9_deterministic :
    (∀ docs1 docs2 : List (List Char), docs1 = docs2 →
      (builtIndex docs1).vocab = (builtIndex docs2).vocab ∧
      (builtIndex docs1).rows = (builtIndex docs2).rows ∧
      build_bm25_index docs1 = build_bm25_index docs2) ∧
    (∀ (lexScores : List ℝ) (query : List Char) (chunks : List (List Char))
        (k : ℕ) (a : ℝ) (order1 order2 : List ℕ), order1 = order2 →
      hybrid_retrieval lexScores query chunks k a order1
        = hybrid_retrieval lexScores query chunks k a order2) := by
  constructor
  · rintro d1 d2 rfl
    exact ⟨rfl, rfl, rfl⟩
  · rintro lex q c k a o1 o2 rfl
    rfl

/-- Witness for C9 at concrete inputs. -/
theorem C9_deterministic_witness :
    ((builtIndex ["aa bb".toList, "aa bb".toList]).vocab
        = (builtIndex ["aa bb".toList, "aa bb".toList]).vocab ∧
      (builtIndex ["aa bb".toList, "aa bb".toList]).rows
        = (builtIndex ["aa bb".toList, "aa bb".toList]).rows ∧
      build_bm25_index ["aa bb".toList, "aa bb".toList]
        = build_bm25_index ["aa bb".toList, "aa bb".toList]) ∧
    hybrid_retrieval ([1, 0] : List ℝ) "aa".toList ["aa".toList, "bb".toList] 1 1 [0, 1]
      = hybrid_retrieval ([1, 0] : List ℝ) "aa".toList ["aa".toList, "bb".toList] 1 1 [0, 1] :=
  ⟨C9_deterministic.1 _ _ rfl, C9_deterministic.2 _ _ _ _ _ _ _ rfl⟩

/-- C5: for every query whose analyzer tokens all fall outside the index
vocabulary, the lexical scorer assigns score exactly 0.0 to every chunk
(`cosine_similarity` of the zero query vector), it still returns
min(top_k, corpus size) ranked results rather than raising an error, and a
chunk has nonzero overlap score only when its text shares a lower-cased
whitespace token with the query verbatim. -/
theorem C5_oov_query {idx : TfidfIndex} {query : List Char} {k : ℕ}
    (hk : 1 ≤ k)
    (hoov : ∀ t ∈ sklearnTokenize query, t ∉ idx.vocab) :
    (∀ s ∈ bm25Scores idx query, s = 0) ∧
    (bm25_retrieval (bm25Scores idx query) k).length = min k idx.rows.length ∧
    (∀ c : List Char, overlapCount query c ≠ 0 →
      ∃ t ∈ pyWords (pyLower query), t ∈ pyWords (pyLower c)) := by
  refine ⟨bm25Scores_oov hoov, ?_, ?_⟩
  · have h1 : (bm25Scores idx query).length = idx.rows.length := by
      unfold bm25Scores
      rw [List.length_map]
    unfold bm25_retrieval
    rw [retrievalResults_length _ hk, h1]
  · intro c hne
    unfold overlapCount at hne
    have h0 : ((pyWords (pyLower query)).dedup.filter
        (fun t => t ∈ pyWords (pyLower c))) ≠ [] := by
      intro h0
      rw [h0] at hne
      exact hne rfl
    obtain ⟨t, ht⟩ := List.exists_mem_of_ne_nil _ h0
    refine ⟨t, List.mem_dedup.mp (List.mem_of_mem_filter ht), ?_⟩
    have h2 := List.of_mem_filter ht
    rwa [decide_eq_true_eq] at h2

/-- Witness for C5: a one-term index over vocabulary term "aa" and the
out-of-vocabulary query "zz". -/
theorem C5_oov_query_witness :
    (1 ≤ 1 ∧ (∀ t ∈ sklearnTokenize "zz".toList,
      t ∉ (TfidfIndex.mk ["aa".toList] [1] [[1]]).vocab)) ∧
    ((∀ s ∈ bm25Scores (TfidfIndex.mk ["aa".toList] [1] [[1]]) "zz".toList, s = 0) ∧
    (bm25_retrieval (bm25Scores (TfidfIndex.mk ["aa".toList] [1] [[1]]) "zz".toList) 1).length
      = min 1 (TfidfIndex.mk ["aa".toList] [1] [[1]]).rows.length ∧
    (∀ c : List Char, overlapCount "zz".toList c ≠ 0 →
      ∃ t ∈ pyWords (pyLower "zz".toList), t ∈ pyWords (pyLower c))) :=
  ⟨⟨by decide, by decide⟩, C5_oov_query (by decide) (by decide)⟩

/-- C6 counterexample: the claim says retrieve fails with EmptyQueryError
exactly on blank queries, but the repository defines no such error and the
code has no raise path: on the whitespace-only query "  " the retrieval
returns a normally ranked result list (all scores 0) instead of failing.
The lexical scores [0, 0] are those the blank query induces (the amended
theorem proves every lexical score of a blank query is 0). -/
theorem C6_counterexample :
    (∀ c ∈ "  ".toList, c.isWhitespace = true) ∧
    hybrid_retrieval ([0, 0] : List ℚ) "  ".toList ["aa".toList, "bb".toList] 2 1 [0, 1]
      = [(0, 0), (1, 0)] := by
  refine ⟨by decide, ?_⟩
  norm_num [hybrid_retrieval, hybridCandidates, fusedScore, dictGet, bm25_retrieval,
    dense_retrieval_mock, retrievalResults, topIndices, argsortAsc, lastKRev, denseScores,
    overlapCount, pyWords, pyWordsAux, pyLower, List.insertionSort, List.orderedInsert,
    scoreAsc, scoreDesc]

/-- C6 amended: retrieval never raises on a blank or whitespace-only query;
such a query is a defined no-match state: every lexical cosine score and
every overlap score is 0, and `hybrid_retrieval` still returns
min(top_k, candidate count) results, all carrying fused score 0. -/
theorem C6_blank_query_no_error {idx : TfidfIndex} {query : List Char}
    {chunks : List (List Char)} {k : ℕ} {a : ℝ} {order : List ℕ}
    (_hk : 1 ≤ k)
    (hblank : ∀ c ∈ query, c.isWhitespace = true) :
    (∀ s ∈ bm25Scores idx query, s = 0) ∧
    (∀ s ∈ denseScores (α := ℝ) query chunks, s = 0) ∧
    (hybrid_retrieval (bm25Scores idx query) query chunks k a order).length
      = min k order.length ∧
    (∀ p ∈ hybrid_retrieval (bm25Scores idx query) query chunks k a order, p.2 = 0) := by
  have hlex : ∀ s ∈ bm25Scores idx query, s = 0 := by
    apply bm25Scores_oov
    intro t ht
    rw [sklearnTokenize_blank hblank] at ht
    exact absurd ht (List.not_mem_nil t)
  have hdense : ∀ s ∈ denseScores (α := ℝ) query chunks, s = 0 := by
    intro s hs
    unfold denseScores at hs
    obtain ⟨c, _, rfl⟩ := List.mem_map.mp hs
    rw [overlapCount_blank hblank]
    exact Nat.cast_zero
  refine ⟨hlex, hdense, hybrid_length _ _ _ _ _ _, ?_⟩
  intro p hp
  rw [(hybrid_mem hp).2]
  unfold fusedScore bm25_retrieval dense_retrieval_mock
  rw [dictGet_retrievalResults_zero hlex, dictGet_retrievalResults_zero hdense,
    mul_zero, mul_zero, add_zero]

/-- Witness for the amended C6: blank query "  " against a one-chunk corpus. -/
theorem C6_blank_query_witness :
    (1 ≤ 1 ∧ (∀ c ∈ "  ".toList, Char.isWhitespace c = true)) ∧
    ((∀ s ∈ bm25Scores (TfidfIndex.mk ["aa".toList] [1] [[1]]) "  ".toList, s = 0) ∧
    (∀ s ∈ denseScores (α := ℝ) "  ".toList ["aa".toList], s = 0) ∧
    (hybrid_retrieval (bm25Scores (TfidfIndex.mk ["aa".toList] [1] [[1]]) "  ".toList)
        "  ".toList ["aa".toList] 1 1 [0]).length = min 1 ([0] : List ℕ).length ∧
    (∀ p ∈ hybrid_retrieval (bm25Scores (TfidfIndex.mk ["aa".toList] [1] [[1]]) "  ".toList)
        "  ".toList ["aa".toList] 1 1 [0], p.2 = 0)) :=
  ⟨⟨by decide, by decide⟩, C6_blank_query_no_error (by decide) (by decide)⟩

/-- C7 counterexample: `build_bm25_index` defines no EmptyCorpusError or
DegenerateVocabularyError classes; sklearn raises its `empty vocabulary`
ValueError both for the zero-chunk corpus and for a nonempty corpus whose
tokens are all below the two-character token-pattern minimum, so no error
value is raised exactly when the corpus is empty, and the two spec error
categories are not distinguished by the code. -/
theorem C7_counterexample :
    build_bm25_index [] = .error .emptyVocabulary ∧
    build_bm25_index ["a b".toList] = .error .emptyVocabulary ∧
    (["a b".toList] : List (List Char)) ≠ [] := by
  refine ⟨?_, ?_, by decide⟩
  · unfold build_bm25_index
    rw [if_pos (by decide)]
  · unfold build_bm25_index
    rw [if_pos (by decide)]

/-- C7 amended: `build_bm25_index` fails (propagating a sklearn ValueError,
with no error classes of its own) exactly when the fitted vocabulary is
empty; the empty corpus is one instance of that same failure, not a
distinct error; in every other case the vectorizer and matrix are returned
without error. -/
theorem C7_build_failure (docs : List (List Char)) :
    ((∃ e, build_bm25_index docs = .error e) ↔ fitVocabulary docs = []) ∧
    (docs = [] → build_bm25_index docs = .error .emptyVocabulary) ∧
    (fitVocabulary docs ≠ [] → build_bm25_index docs = .ok (builtIndex docs)) := by
  refine ⟨build_fails_iff, ?_, build_succeeds⟩
  rintro rfl
  unfold build_bm25_index
  rw [if_pos (by decide)]

/-- Witness for the amended C7: the empty corpus fails with the
empty-vocabulary error, and a two-chunk corpus with document frequency 2
terms builds an index. -/
theorem C7_build_failure_witness :
    build_bm25_index [] = .error .emptyVocabulary ∧
    build_bm25_index ["xx yy".toList, "xx yy".toList]
      = .ok (builtIndex ["xx yy".toList, "xx yy".toList]) :=
  ⟨(C7_build_failure []).2.1 rfl, (C7_build_failure _).2.2 (by decide)⟩

/-- C8: the overlap score of `dense_retrieval_mock` is exactly the
cardinality of the set intersection of the lower-cased whitespace-tokenized
query and chunk, and the per-chunk score vector is that integer promoted to
the score field with no normalization by either set size. -/
theorem C8_overlap_intersection_card :
    (∀ query chunk : List Char,
      overlapCount query chunk
        = ((pyWords (pyLower query)).toFinset ∩ (pyWords (pyLower chunk)).toFinset).card) ∧
    (∀ (query : List Char) (chunks : List (List Char)),
      denseScores (α := ℝ) query chunks
        = chunks.map (fun c => ((overlapCount query c : ℕ) : ℝ))) := by
  constructor
  · intro query chunk
    unfold overlapCount
    have hnd : ((pyWords (pyLower query)).dedup.filter
        (fun t => t ∈ pyWords (pyLower chunk))).Nodup :=
      List.Nodup.filter _ (List.nodup_dedup _)
    rw [← List.toFinset_card_of_nodup hnd]
    congr 1
    ext t
    simp [List.mem_toFinset, List.mem_filter, List.mem_dedup, Finset.mem_inter]
  · intro query chunks
    rfl

/-- C10: the index builder removes the sklearn English stop words before
counting, regardless of document frequency, so a query consisting only of
stop words has every lexical score 0.0; the overlap scorer performs no
stop word removal, and any shared token — stop word or not — yields a
positive overlap score. -/
theorem C10_stopwords {docs : List (List Char)} {idx : TfidfIndex}
    (hok : build_bm25_index docs = .ok idx) :
    (∀ t ∈ englishStopWords, t ∉ idx.vocab) ∧
    (∀ query : List Char, (∀ t ∈ sklearnTokenize query, t ∈ englishStopWords) →
      ∀ s ∈ bm25Scores idx query, s = 0) ∧
    (∀ query c t : List Char, t ∈ pyWords (pyLower query) → t ∈ pyWords (pyLower c) →
      0 < overlapCount query c) := by
  have hvocab := build_ok_vocab hok
  have hsw : ∀ t ∈ englishStopWords, t ∉ idx.vocab := by
    intro t ht hv
    rw [hvocab] at hv
    exact stopword_not_in_rawVocabulary ht (fitVocabulary_subset_raw t hv)
  refine ⟨hsw, ?_, ?_⟩
  · intro query hq
    apply bm25Scores_oov
    intro t ht
    exact hsw t (hq t ht)
  · intro query c t htq htc
    unfold overlapCount
    rw [List.length_pos]
    apply List.ne_nil_of_mem (a := t)
    rw [List.mem_filter]
    refine ⟨List.mem_dedup.mpr htq, ?_⟩
    rw [decide_eq_true_eq]
    exact htc

/-- Witness for C10: the two-chunk corpus of the C7 witness builds an index
whose vocabulary excludes every stop word. -/
theorem C10_stopwords_witness :
    build_bm25_index ["xx yy".toList, "xx yy".toList]
        = .ok (builtIndex ["xx yy".toList, "xx yy".toList]) ∧
    ((∀ t ∈ englishStopWords,
        t ∉ (builtIndex ["xx yy".toList, "xx yy".toList]).vocab) ∧
    (∀ query : List Char, (∀ t ∈ sklearnTokenize query, t ∈ englishStopWords) →
      ∀ s ∈ bm25Scores (builtIndex ["xx yy".toList, "xx yy".toList]) query, s = 0) ∧
    (∀ query c t : List Char, t ∈ pyWords (pyLower query) → t ∈ pyWords (pyLower c) →
      0 < overlapCount query c)) :=
  ⟨build_succeeds (by decide), C10_stopwords (build_succeeds (by decide))⟩

end Claims

end Retriever
